import Mathlib

/-!
Formal model of the `fdtd` repository (one-dimensional Schrödinger FDTD
integrator). Python floats are modelled as real numbers; numpy arrays as
`List ℝ`; fallible constructions as `Option`; the non-fatal
`warnings.warn` diagnostic as a boolean flag returned next to the array.
Each definition mirrors one function or method of the source files
`potentials.py`, `particle.py`, `simulation.py`.
-/

namespace FDTD

/-- Planck's constant in natural units, `hbar = 1.0e0` in the source. -/
noncomputable def hbar : ℝ := 1

/-! ### potentials.py -/

/-- Model of numpy masked assignment `res[mask] = a`: where the mask is
true the entry is replaced by `a`, elsewhere kept. -/
def maskedAssign (res : List ℝ) (mask : List Bool) (a : ℝ) : List ℝ :=
  List.zipWith (fun r m => if m then a else r) res mask

/-- Python `min` over a numpy array; raises on an empty array, so the
empty case (defaulted to 0 here) is never exercised by the source. -/
noncomputable def listMin (l : List ℝ) : ℝ :=
  match l with
  | [] => 0
  | x :: xs => xs.foldl min x

/-- Python `max` / `ndarray.max()` over a numpy array; raises on an empty
array, so the empty case (defaulted to 0 here) is never exercised. -/
noncomputable def listMax (l : List ℝ) : ℝ :=
  match l with
  | [] => 0
  | x :: xs => xs.foldl max x

/-- NullPotential._farr: `np.zeros(len(x))`. -/
def nullFarr (x : List ℝ) : List ℝ := List.replicate x.length 0

/-- PointPotential state after `__init__`: the constructor stores the
attributes `A`, `pos` and — under the name `epsilon` — the tolerance. -/
structure PointPotential where
  A : ℝ
  pos : ℝ
  epsilon : ℝ

/-- PointPotential.__init__ : `pos` defaults to 0, `tolerance` defaults
to 0.0001, and the tolerance parameter is stored as `self.epsilon`. -/
noncomputable def PointPotential.make (A : ℝ) (pos? tol? : Option ℝ) : PointPotential :=
  { A := A, pos := pos?.getD 0, epsilon := tol?.getD (1/10000) }

/-- Table of the real-valued attribute names a PointPotential instance
actually carries after `__init__` (the base class adds only the string
attribute `name`). Looking up any other attribute name models Python
raising `AttributeError`, encoded as `none`. -/
noncomputable def PointPotential.attr (p : PointPotential) (a : String) : Option ℝ :=
  if a = "A" then some p.A
  else if a = "pos" then some p.pos
  else if a = "epsilon" then some p.epsilon
  else none

/-- PointPotential._fx as written in the source: the body evaluates
`abs(x) <= (self.pos + self.tolerance)`, reading the attribute
`tolerance`, which `__init__` never sets (it stores `epsilon`); the
attribute lookup is modelled through `PointPotential.attr`. -/
noncomputable def PointPotential.fx (p : PointPotential) (x : ℝ) : Option ℝ :=
  match PointPotential.attr p "tolerance" with
  | none => none
  | some tol => some (if |x| ≤ p.pos + tol then p.A else 0)

/-- PointPotential._farr. Returns the resulting array together with a
flag recording whether `warnings.warn` was called. Mirrors the source:
an all-zero array with a warning when the scale does not straddle `pos`;
otherwise the first index minimising `|x - pos|` is found, the guard
`abs(x[idx]) > abs(pos + epsilon)` is tested (exactly as written), and
on success the amplitude is written at that single index. -/
noncomputable def PointPotential.farr (p : PointPotential) (x : List ℝ) : List ℝ × Bool :=
  let res := List.replicate x.length (0 : ℝ)
  if listMin x > p.pos ∨ listMax x < p.pos then
    (res, true)
  else
    let shiftx := x.map (fun xi => |xi - p.pos|)
    let idx := shiftx.findIdx (fun v => decide (v = listMin shiftx))
    if |x.getD idx 0| > |p.pos + p.epsilon| then
      (res, true)
    else
      (res.set idx p.A, false)

/-- StepPotential state after `__init__` (`pos` defaults to 0). -/
structure StepPotential where
  A : ℝ
  pos : ℝ

/-- StepPotential._fx: `A` strictly left of the step, 0 otherwise. -/
noncomputable def StepPotential.fx (p : StepPotential) (x : ℝ) : ℝ :=
  if x < p.pos then p.A else 0

/-- StepPotential._farr: `res = np.zeros(len(x)); res[x >= self.pos] = self.A`. -/
noncomputable def StepPotential.farr (p : StepPotential) (x : List ℝ) : List ℝ :=
  maskedAssign (List.replicate x.length 0) (x.map (fun xi => decide (p.pos ≤ xi))) p.A

/-! ### particle.py -/

/-- Particle state after a successful `__init__`. -/
structure Particle where
  x0 : ℝ
  sigma : ℝ
  k0 : ℝ
  m : ℝ
  E : ℝ

/-- The energy expression `(hbar**2/2.0/m)*(k**2+0.5/sigma**2)` of
`Particle.__init__`, as a function of the wavenumber value `k` the
expression is evaluated at. -/
noncomputable def particleEnergy (sigma k m : ℝ) : ℝ :=
  hbar ^ 2 / 2 / m * (k ^ 2 + (1 / 2) / sigma ^ 2)

/-- Particle.__init__. The line `self.E = (hbar**2/2.0/m)*(k0**2+0.5/sigma**2)`
squares the *parameter* `k0`, not the attribute `self.k0`; when `k0` is
left unspecified (Python `None`), `None**2` raises `TypeError` and
construction fails, modelled as `none`. With an explicit `k0` the
constructor succeeds and `E` is computed from that value. -/
noncomputable def Particle.init (x0 sigma : ℝ) (k0? : Option ℝ) (m : ℝ) : Option Particle :=
  match k0? with
  | none => none
  | some k0 => some { x0 := x0, sigma := sigma, k0 := k0, m := m, E := particleEnergy sigma k0 m }

/-- Particle.make: the successful branch of `__init__` with an explicit
wavenumber, used to build concrete particles. -/
noncomputable def Particle.make (x0 sigma k0 m : ℝ) : Particle :=
  { x0 := x0, sigma := sigma, k0 := k0, m := m, E := particleEnergy sigma k0 m }

/-- Particle.real: `exp(-(x-t-x0)**2/(2*sigma**2)) * cos(k0*x)`. -/
noncomputable def Particle.real (g : Particle) (x t : ℝ) : ℝ :=
  Real.exp (-(x - t - g.x0) ^ 2 / (2 * g.sigma ^ 2)) * Real.cos (g.k0 * x)

/-- Particle.imag: `exp(-(x-t-x0)**2/(2*sigma**2)) * sin(k0*x)`. -/
noncomputable def Particle.imag (g : Particle) (x t : ℝ) : ℝ :=
  Real.exp (-(x - t - g.x0) ^ 2 / (2 * g.sigma ^ 2)) * Real.sin (g.k0 * x)

/-- Particle.prob: `real(x,t)**2 + imag(x,t)**2`. -/
noncomputable def Particle.prob (g : Particle) (x t : ℝ) : ℝ :=
  g.real x t ^ 2 + g.imag x t ^ 2

/-! ### simulation.py -/

/-- The particle interface the simulation consumes: vectorised `real`,
`imag`, `prob` at a position and a time, and the mass `m`. -/
structure PIface where
  real : ℝ → ℝ → ℝ
  imag : ℝ → ℝ → ℝ
  prob : ℝ → ℝ → ℝ
  m : ℝ

/-- The interface view of a Particle instance. -/
noncomputable def Particle.iface (g : Particle) : PIface :=
  { real := g.real, imag := g.imag, prob := g.prob, m := g.m }

/-- numpy `np.arange(start, stop, step)`: `max 0 ⌈(stop-start)/step⌉`
points `start + i*step`. -/
noncomputable def arange (start stop step : ℝ) : List ℝ :=
  (List.range (⌈(stop - start) / step⌉).toNat).map (fun i : ℕ => start + (i : ℝ) * step)

/-- In-place numpy addition `V += w` of two one-dimensional arrays:
defined when the shapes agree (or `w` has a single broadcastable entry),
a `ValueError` otherwise, modelled as `none`. -/
def npAdd (V w : List ℝ) : Option (List ℝ) :=
  if w.length = V.length then some (List.zipWith (fun a b => a + b) V w)
  else if w.length = 1 then some (V.map (fun a => a + w.getD 0 0))
  else none

/-- Simulation.evalPotentials: starts from `np.zeros((N,))` and adds each
contributor's array evaluation on the scale in turn. -/
def evalPotentials (pots : List (List ℝ → List ℝ)) (scale : List ℝ) (N : ℕ) : Option (List ℝ) :=
  pots.foldlM (fun V pot => npAdd V (pot scale)) (List.replicate N 0)

/-- Simulation state after `__init__`. -/
structure Simulation where
  N : ℕ
  T : ℕ
  dx : ℝ
  dt? : Option ℝ
  scale : List ℝ
  V : List ℝ
  p : PIface

/-- Simulation.__init__: `T` defaults to `5*N`, the scale is
`np.arange(startx, endx, dx)` with limits from `xlims` when given and
`(0, N*dx)` otherwise, and the potential field is resolved once. -/
noncomputable def Simulation.init (p : PIface) (pots : List (List ℝ → List ℝ)) (N : ℕ)
    (dx : ℝ) (xlims? : Option (ℝ × ℝ)) (T? : Option ℕ) (dt? : Option ℝ) : Option Simulation :=
  let T := T?.getD (5 * N)
  let startx := match xlims? with | none => 0 | some l => l.1
  let endx := match xlims? with | none => (N : ℝ) * dx | some l => l.2
  let scale := arange startx endx dx
  match evalPotentials pots scale N with
  | none => none
  | some V => some { N := N, T := T, dx := dx, dt? := dt?, scale := scale, V := V, p := p }

/-- The derived time step: `hbar / (2*hbar**2/(m*dx**2) + V.max())` when
`dt` was not supplied, the supplied value otherwise. -/
noncomputable def Simulation.dtv (sim : Simulation) : ℝ :=
  match sim.dt? with
  | none => hbar / (2 * hbar ^ 2 / (sim.p.m * sim.dx ^ 2) + listMax sim.V)
  | some d => d

/-- Leapfrog coefficient `c1 = hbar*dt/(m*dx**2)`. -/
noncomputable def Simulation.c1v (sim : Simulation) : ℝ :=
  hbar * sim.dtv / (sim.p.m * sim.dx ^ 2)

/-- Leapfrog coefficient `c2 = 2*dt/hbar`. -/
noncomputable def Simulation.c2v (sim : Simulation) : ℝ :=
  2 * sim.dtv / hbar

/-- Elementwise `c2V = c2 * V`. -/
noncomputable def Simulation.c2Vv (sim : Simulation) : List ℝ :=
  sim.V.map (fun v => sim.c2v * v)

/-- The integration probability mass `P = dx * psi_p.sum()` computed from
the particle's `prob` evaluated on the scale at `t = 0`. -/
noncomputable def Simulation.P0 (sim : Simulation) : ℝ :=
  sim.dx * (sim.scale.map (fun x => sim.p.prob x 0)).sum

/-- The six wavefunction rows of the triple buffers `psi_r`, `psi_i`:
past, present and future slices of the real and imaginary components. -/
structure SimState where
  rPA : List ℝ
  rPR : List ℝ
  rFU : List ℝ
  iPA : List ℝ
  iPR : List ℝ
  iFU : List ℝ

/-- Wavefunction state after the initialization and normalization lines
of `simulate`: present and past rows are both seeded from the particle's
formulas at `t = 0` and divided by `nrm = sqrt(P)`; the future rows keep
the zeros of `np.zeros((3,N))` (the division leaves `0/nrm = 0`). -/
noncomputable def Simulation.initState (sim : Simulation) : SimState :=
  let nrm := Real.sqrt sim.P0
  let r0 := sim.scale.map (fun x => sim.p.real x 0 / nrm)
  let i0 := sim.scale.map (fun x => sim.p.imag x 0 / nrm)
  { rPA := r0, rPR := r0, rFU := List.replicate sim.N 0,
    iPA := i0, iPR := i0, iFU := List.replicate sim.N 0 }

/-- The centred second difference `c1*(v[k+1] - 2*v[k] + v[k-1])`. -/
noncomputable def stencil (c1 : ℝ) (v : List ℝ) (k : ℕ) : ℝ :=
  c1 * (v.getD (k + 1) 0 - 2 * v.getD k 0 + v.getD (k - 1) 0)

/-- One iteration of the `for t in range(self.T+1)` loop body, before the
sampling test. The stencil assignments write only the interior indices
`IDX1 = arange(1, N-1)` of the future rows (the boundary entries keep
their previous future-row values), the potential-term lines
`psi_i[FU] -= c2V*psi_r[PR]` and `psi_r[FU] += c2V*psi_i[PR]` act on the
whole rows, and the final reassignments rotate present to past and
future to present while the future rows keep their new values. -/
noncomputable def stepOnce (N : ℕ) (c1 : ℝ) (c2V : List ℝ) (s : SimState) : SimState :=
  let iFU1 := (List.range N).map (fun k =>
    if 1 ≤ k ∧ k < N - 1 then s.iPA.getD k 0 + stencil c1 s.rPR k else s.iFU.getD k 0)
  let iFU2 := List.zipWith (fun a b => a - b) iFU1 (List.zipWith (fun a b => a * b) c2V s.rPR)
  let rFU1 := (List.range N).map (fun k =>
    if 1 ≤ k ∧ k < N - 1 then s.rPA.getD k 0 - stencil c1 s.iPR k else s.rFU.getD k 0)
  let rFU2 := List.zipWith (fun a b => a + b) rFU1 (List.zipWith (fun a b => a * b) c2V s.iPR)
  { rPA := s.rPR, rPR := rFU2, rFU := rFU2,
    iPA := s.iPR, iPR := iFU2, iFU := iFU2 }

/-- One yielded sample: `{'prob': .., 'real': .., 'imag': ..}`. -/
structure Snapshot where
  prob : List ℝ
  real : List ℝ
  imag : List ℝ

/-- The sample assembled at a yield point: `psi_p = psi_r[PR]**2 + psi_i[PR]**2`
together with the present rows. -/
noncomputable def snapshotOf (s : SimState) : Snapshot :=
  { prob := List.zipWith (fun a b => a ^ 2 + b ^ 2) s.rPR s.iPR,
    real := s.rPR, imag := s.iPR }

/-- The stepping loop: `fuel` remaining iterations, `t` the current loop
counter. Each iteration applies the update and rotation and then, when
`t % deltaT == 0`, yields a snapshot of the (new) present slices. A
`deltaT` of zero raises `ZeroDivisionError` in Python; the theorems only
use `deltaT ≥ 1`. -/
noncomputable def runSteps (N : ℕ) (c1 : ℝ) (c2V : List ℝ) (deltaT : ℕ) :
    ℕ → ℕ → SimState → List Snapshot
  | 0, _, _ => []
  | fuel + 1, t, s =>
    let s1 := stepOnce N c1 c2V s
    if t % deltaT = 0 then snapshotOf s1 :: runSteps N c1 c2V deltaT fuel (t + 1) s1
    else runSteps N c1 c2V deltaT fuel (t + 1) s1

/-- Simulation.simulate: the generator's full yielded sequence, i.e. the
loop `for t in range(self.T+1)` started on the normalized initial state. -/
noncomputable def Simulation.simulate (sim : Simulation) (deltaT : ℕ) : List Snapshot :=
  runSteps sim.N sim.c1v sim.c2Vv deltaT (sim.T + 1) 0 sim.initState

/-- The loop's internal wavefunction state after `t` iterations of the
body (`stateAt 0` is the state right after initialization/normalization). -/
noncomputable def Simulation.stateAt (sim : Simulation) (t : ℕ) : SimState :=
  (stepOnce sim.N sim.c1v sim.c2Vv)^[t] sim.initState

/-- All six buffer rows have length `N`. -/
def SimState.dims (s : SimState) (N : ℕ) : Prop :=
  s.rPA.length = N ∧ s.rPR.length = N ∧ s.rFU.length = N ∧
  s.iPA.length = N ∧ s.iPR.length = N ∧ s.iFU.length = N

/-- Number of loop counters `t, t+1, ..., t+fuel-1` hitting the sampling
condition `t % deltaT == 0`; mirrors the recursion of `runSteps`. -/
def countYields (deltaT : ℕ) : ℕ → ℕ → ℕ
  | 0, _ => 0
  | fuel + 1, t => (if t % deltaT = 0 then 1 else 0) + countYields deltaT fuel (t + 1)

/-! ### Concrete instances used by counterexamples and witnesses -/

/-- A concrete Gaussian particle: `Particle(x0=2, sigma=1, k0=1, m=1)`. -/
noncomputable def gE : Particle := Particle.make 2 1 1 1

/-- The simulation `Simulation(gE, [NullPotential()], N=4, dx=1, T=0)`;
its constructed fields are spelled out (`scale = arange(0, 4, 1)`,
`V = zeros(4)`), as certified against `Simulation.init` below. -/
noncomputable def simE : Simulation :=
  { N := 4, T := 0, dx := 1, dt? := none,
    scale := [0, 1, 2, 3], V := [0, 0, 0, 0], p := Particle.iface gE }

/-- A trivial particle interface (identically zero wavefunction) used
only to exercise constructor length bookkeeping. -/
def pZero : PIface :=
  { real := fun _ _ => 0, imag := fun _ _ => 0, prob := fun _ _ => 0, m := 1 }

/-! ### Helper lemmas -/

theorem getD_zipWith (f : ℝ → ℝ → ℝ) (hf : f 0 0 = 0) (a b : List ℝ)
    (h : a.length = b.length) (k : ℕ) :
    (List.zipWith f a b).getD k 0 = f (a.getD k 0) (b.getD k 0) := by
  induction a generalizing b k with
  | nil =>
    cases b with
    | nil => simp [hf]
    | cons y ys => simp at h
  | cons x xs ih =>
    cases b with
    | nil => simp at h
    | cons y ys =>
      cases k with
      | zero => simp
      | succ k => simpa using ih ys (by simpa using h) k

theorem getD_range_map (g : ℕ → ℝ) (N k : ℕ) :
    ((List.range N).map g).getD k 0 = if k < N then g k else 0 := by
  by_cases h : k < N
  · rw [List.getD_eq_getElem]
    · simp [h]
    · simpa using h
  · rw [List.getD_eq_default]
    · simp [h]
    · simpa using Nat.le_of_not_lt h

theorem getD_map_mul (c : ℝ) (l : List ℝ) (k : ℕ) :
    (l.map (fun v => c * v)).getD k 0 = c * l.getD k 0 := by
  induction l generalizing k with
  | nil => simp
  | cons x xs ih =>
    cases k with
    | zero => simp
    | succ k => simpa using ih k

theorem zipWith_map_same (f : ℝ → ℝ → ℝ) (g h : ℝ → ℝ) (l : List ℝ) :
    List.zipWith f (l.map g) (l.map h) = l.map (fun x => f (g x) (h x)) := by
  induction l with
  | nil => rfl
  | cons a l ih => simp [ih]

theorem sum_map_div (l : List ℝ) (f : ℝ → ℝ) (c : ℝ) :
    (l.map (fun x => f x / c)).sum = (l.map f).sum / c := by
  induction l with
  | nil => simp
  | cons a l ih => simp [ih, add_div]

theorem stepOnce_dims (N : ℕ) (c1 : ℝ) (c2V : List ℝ) (s : SimState)
    (hc : c2V.length = N) (hs : s.dims N) : (stepOnce N c1 c2V s).dims N := by
  obtain ⟨h1, h2, h3, h4, h5, h6⟩ := hs
  refine ⟨h2, ?_, ?_, h5, ?_, ?_⟩ <;>
    simp [stepOnce, List.length_zipWith, hc, h2, h5]

theorem initState_dims (sim : Simulation) (hs : sim.scale.length = sim.N) :
    sim.initState.dims sim.N := by
  refine ⟨?_, ?_, ?_, ?_, ?_, ?_⟩ <;> simp [Simulation.initState, hs]

theorem snapshotOf_lengths (s : SimState) (N : ℕ) (hs : s.dims N) :
    (snapshotOf s).prob.length = N ∧ (snapshotOf s).real.length = N ∧
      (snapshotOf s).imag.length = N := by
  obtain ⟨h1, h2, h3, h4, h5, h6⟩ := hs
  refine ⟨?_, h2, h5⟩
  simp [snapshotOf, List.length_zipWith, h2, h5]

theorem runSteps_length (N : ℕ) (c1 : ℝ) (c2V : List ℝ) (dT : ℕ) (fuel : ℕ) :
    ∀ (t : ℕ) (s : SimState),
      (runSteps N c1 c2V dT fuel t s).length = countYields dT fuel t := by
  induction fuel with
  | zero => intro t s; rfl
  | succ fuel ih =>
    intro t s
    rw [runSteps, countYields]
    by_cases h : t % dT = 0
    · rw [if_pos h, if_pos h]
      simp [ih, Nat.add_comm]
    · rw [if_neg h, if_neg h]
      simp [ih]

theorem countYields_succ (dT : ℕ) (fuel : ℕ) :
    ∀ t, countYields dT (fuel + 1) t =
      countYields dT fuel t + (if (t + fuel) % dT = 0 then 1 else 0) := by
  induction fuel with
  | zero => intro t; simp [countYields]
  | succ fuel ih =>
    intro t
    rw [countYields, ih (t + 1), countYields]
    have h : t + 1 + fuel = t + (fuel + 1) := by omega
    rw [h]
    omega

theorem countYields_total (dT : ℕ) (T : ℕ) :
    countYields dT (T + 1) 0 = T / dT + 1 := by
  induction T with
  | zero => simp [countYields, Nat.zero_mod]
  | succ T ih =>
    rw [countYields_succ, ih, Nat.succ_div]
    have hiff : (0 + (T + 1)) % dT = 0 ↔ dT ∣ T + 1 := by
      rw [Nat.zero_add]
      exact (Nat.dvd_iff_mod_eq_zero).symm
    by_cases h : dT ∣ T + 1
    · rw [if_pos (hiff.mpr h), if_pos h]
    · rw [if_neg (fun hc => h (hiff.mp hc)), if_neg h]

theorem runSteps_mem_lengths (N : ℕ) (c1 : ℝ) (c2V : List ℝ) (dT : ℕ)
    (hc : c2V.length = N) (fuel : ℕ) :
    ∀ (t : ℕ) (s : SimState), s.dims N →
      ∀ sn ∈ runSteps N c1 c2V dT fuel t s,
        sn.prob.length = N ∧ sn.real.length = N ∧ sn.imag.length = N := by
  induction fuel with
  | zero => intro t s _ sn hsn; simp [runSteps] at hsn
  | succ fuel ih =>
    intro t s hs sn hsn
    rw [runSteps] at hsn
    have hdims : (stepOnce N c1 c2V s).dims N := stepOnce_dims N c1 c2V s hc hs
    by_cases h : t % dT = 0
    · rw [if_pos h] at hsn
      rcases List.mem_cons.mp hsn with h1 | h2
      · subst h1; exact snapshotOf_lengths _ N hdims
      · exact ih (t + 1) _ hdims sn h2
    · rw [if_neg h] at hsn
      exact ih (t + 1) _ hdims sn hsn

theorem getD_map_lt (f : ℝ → ℝ) (l : List ℝ) (k : ℕ) (hk : k < l.length) :
    (l.map f).getD k 0 = f (l.getD k 0) := by
  rw [List.getD_eq_getElem _ _ (by simpa using hk), List.getD_eq_getElem _ _ hk]
  simp

theorem initState_rPR_getD (sim : Simulation) (k : ℕ) (hk : k < sim.scale.length) :
    sim.initState.rPR.getD k 0 =
      sim.p.real (sim.scale.getD k 0) 0 / Real.sqrt sim.P0 := by
  simp only [Simulation.initState]
  exact getD_map_lt _ _ _ hk

theorem stepOnce_boundary (N : ℕ) (c1 : ℝ) (c2V : List ℝ) (s : SimState) (k : ℕ)
    (hc2 : c2V.length = N) (hr : s.rPR.length = N) (hi : s.iPR.length = N)
    (hk : ¬(1 ≤ k ∧ k < N - 1)) (hcV : c2V.getD k 0 = 0)
    (hrfu : s.rFU.getD k 0 = 0) (hifu : s.iFU.getD k 0 = 0) :
    (stepOnce N c1 c2V s).rPR.getD k 0 = 0 ∧ (stepOnce N c1 c2V s).iPR.getD k 0 = 0 ∧
    (stepOnce N c1 c2V s).rFU.getD k 0 = 0 ∧ (stepOnce N c1 c2V s).iFU.getD k 0 = 0 := by
  have hlr : (((List.range N).map (fun k =>
      if 1 ≤ k ∧ k < N - 1 then s.rPA.getD k 0 - stencil c1 s.iPR k
      else s.rFU.getD k 0))).length = N := by simp
  have hli : (((List.range N).map (fun k =>
      if 1 ≤ k ∧ k < N - 1 then s.iPA.getD k 0 + stencil c1 s.rPR k
      else s.iFU.getD k 0))).length = N := by simp
  have hinner_r : (List.zipWith (fun a b => a * b) c2V s.iPR).length = N := by
    simp [List.length_zipWith, hc2, hi]
  have hinner_i : (List.zipWith (fun a b => a * b) c2V s.rPR).length = N := by
    simp [List.length_zipWith, hc2, hr]
  have hrv : (stepOnce N c1 c2V s).rPR.getD k 0 = 0 := by
    show (List.zipWith (fun a b => a + b) _ _).getD k 0 = 0
    rw [getD_zipWith _ (by norm_num) _ _ (by rw [hlr, hinner_r]),
      getD_zipWith _ (by norm_num) _ _ (by rw [hc2, hi]),
      getD_range_map, hcV, hrfu]
    simp [hk]
  have hiv : (stepOnce N c1 c2V s).iPR.getD k 0 = 0 := by
    show (List.zipWith (fun a b => a - b) _ _).getD k 0 = 0
    rw [getD_zipWith _ (by norm_num) _ _ (by rw [hli, hinner_i]),
      getD_zipWith _ (by norm_num) _ _ (by rw [hc2, hr]),
      getD_range_map, hcV, hifu]
    simp [hk]
  exact ⟨hrv, hiv, hrv, hiv⟩

theorem probTerm_pos (g : Particle) (x t : ℝ) : 0 < g.prob x t := by
  have h : g.prob x t = Real.exp (-(x - t - g.x0) ^ 2 / (2 * g.sigma ^ 2)) ^ 2 := by
    rw [Particle.prob, Particle.real, Particle.imag, mul_pow, mul_pow, ← mul_add,
      Real.cos_sq_add_sin_sq, mul_one]
  rw [h]
  positivity

theorem P0_pos_of_particle (g : Particle) (N T : ℕ) (dx : ℝ) (dt? : Option ℝ)
    (scale V : List ℝ) (hdx : 0 < dx) (hscale : scale ≠ []) :
    0 < (Simulation.mk N T dx dt? scale V (Particle.iface g)).P0 := by
  rw [Simulation.P0]
  apply mul_pos hdx
  apply List.sum_pos
  · intro x hx
    obtain ⟨a, _, rfl⟩ := List.mem_map.mp hx
    exact probTerm_pos g a 0
  · simpa using hscale

theorem arange_default_length (N : ℕ) (dx : ℝ) (hdx : 0 < dx) :
    (arange 0 ((N : ℝ) * dx) dx).length = N := by
  rw [arange]
  have h : ((N : ℝ) * dx - 0) / dx = (N : ℝ) := by
    rw [sub_zero, mul_div_assoc, div_self (ne_of_gt hdx), mul_one]
  rw [h, Int.ceil_natCast, List.length_map, List.length_range, Int.toNat_natCast]

theorem foldlM_npAdd_length (scale : List ℝ) (N : ℕ) (hscale : scale.length = N) :
    ∀ pots : List (List ℝ → List ℝ), (∀ f ∈ pots, (f scale).length = scale.length) →
      ∀ V0 : List ℝ, V0.length = N →
        ∃ V, List.foldlM (fun V pot => npAdd V (pot scale)) V0 pots = some V ∧
          V.length = N := by
  intro pots
  induction pots with
  | nil => intro _ V0 h0; exact ⟨V0, rfl, h0⟩
  | cons f fs ih =>
    intro hpots V0 h0
    have hf : (f scale).length = V0.length := by
      rw [hpots f (List.mem_cons_self f fs), hscale, h0]
    have hnp : npAdd V0 (f scale) =
        some (List.zipWith (fun a b => a + b) V0 (f scale)) := by
      rw [npAdd, if_pos hf]
    obtain ⟨V, hV, hVl⟩ := ih (fun g hg => hpots g (List.mem_cons_of_mem f hg))
      (List.zipWith (fun a b => a + b) V0 (f scale))
      (by rw [List.length_zipWith, h0, hf, h0]; exact min_self N)
    exact ⟨V, by rw [List.foldlM_cons, hnp]; simpa using hV, hVl⟩

theorem getD_replicate_zero (n k : ℕ) : (List.replicate n (0 : ℝ)).getD k 0 = 0 := by
  induction n generalizing k with
  | zero => simp
  | succ n ih =>
    cases k with
    | zero => simp
    | succ k => simpa using ih k

theorem stateAt_zero (sim : Simulation) : sim.stateAt 0 = sim.initState := by
  rw [Simulation.stateAt, Function.iterate_zero_apply]

theorem stateAt_succ (sim : Simulation) (u : ℕ) :
    sim.stateAt (u + 1) = stepOnce sim.N sim.c1v sim.c2Vv (sim.stateAt u) := by
  rw [Simulation.stateAt, Simulation.stateAt, Function.iterate_succ_apply']

theorem stateAt_invariant (sim : Simulation)
    (hs : sim.scale.length = sim.N) (hV : sim.V.length = sim.N)
    (hV0 : sim.V.getD 0 0 = 0) (hVN : sim.V.getD (sim.N - 1) 0 = 0) (u : ℕ) :
    (sim.stateAt u).dims sim.N ∧
    ((sim.stateAt u).rFU.getD 0 0 = 0 ∧ (sim.stateAt u).rFU.getD (sim.N - 1) 0 = 0) ∧
    ((sim.stateAt u).iFU.getD 0 0 = 0 ∧ (sim.stateAt u).iFU.getD (sim.N - 1) 0 = 0) := by
  have hc2len : sim.c2Vv.length = sim.N := by simp [Simulation.c2Vv, hV]
  have hcV0 : sim.c2Vv.getD 0 0 = 0 := by
    rw [Simulation.c2Vv, getD_map_mul, hV0, mul_zero]
  have hcVN : sim.c2Vv.getD (sim.N - 1) 0 = 0 := by
    rw [Simulation.c2Vv, getD_map_mul, hVN, mul_zero]
  induction u with
  | zero =>
    rw [stateAt_zero]
    exact ⟨initState_dims sim hs,
      ⟨getD_replicate_zero _ _, getD_replicate_zero _ _⟩,
      ⟨getD_replicate_zero _ _, getD_replicate_zero _ _⟩⟩
  | succ u ih =>
    obtain ⟨hdims, ⟨hr0, hrN⟩, ⟨hi0, hiN⟩⟩ := ih
    rw [stateAt_succ]
    have hb0 := stepOnce_boundary sim.N sim.c1v sim.c2Vv (sim.stateAt u) 0
      hc2len hdims.2.1 hdims.2.2.2.2.1 (by rintro ⟨h, -⟩; omega) hcV0 hr0 hi0
    have hbN := stepOnce_boundary sim.N sim.c1v sim.c2Vv (sim.stateAt u) (sim.N - 1)
      hc2len hdims.2.1 hdims.2.2.2.2.1 (by rintro ⟨-, h⟩; omega) hcVN hrN hiN
    exact ⟨stepOnce_dims sim.N sim.c1v sim.c2Vv (sim.stateAt u) hc2len hdims,
      ⟨hb0.2.2.1, hbN.2.2.1⟩, ⟨hb0.2.2.2, hbN.2.2.2⟩⟩

theorem simE_from_init :
    Simulation.init (Particle.iface gE) [nullFarr] 4 1 none (some 0) none = some simE := by
  have harange : arange 0 (((4 : ℕ) : ℝ) * 1) 1 = [0, 1, 2, 3] := by
    rw [arange]
    norm_num
    simp [List.range_succ]
  rw [Simulation.init]
  simp only [harange]
  simp [evalPotentials, nullFarr, npAdd, simE]

theorem simE_P0_pos : 0 < simE.P0 :=
  P0_pos_of_particle gE 4 0 1 none [0, 1, 2, 3] [0, 0, 0, 0] (by norm_num) (by simp)

theorem simE_init_rPR0_ne : simE.initState.rPR.getD 0 0 ≠ 0 := by
  have h := initState_rPR_getD simE 0 (by simp [simE])
  rw [h]
  apply div_ne_zero
  · have hval : simE.p.real (simE.scale.getD 0 0) 0 = Real.exp (-2) := by
      simp [simE, Particle.iface, gE, Particle.make, Particle.real]
      norm_num [Real.cos_zero]
    rw [hval]
    exact Real.exp_ne_zero _
  · exact ne_of_gt (Real.sqrt_pos.mpr simE_P0_pos)

theorem simE_c2Vv_len : simE.c2Vv.length = simE.N := by
  simp [Simulation.c2Vv, simE]

theorem simE_step1_boundary :
    (stepOnce simE.N simE.c1v simE.c2Vv simE.initState).rPR.getD 0 0 = 0 ∧
    (stepOnce simE.N simE.c1v simE.c2Vv simE.initState).iPR.getD 0 0 = 0 := by
  have hb := stepOnce_boundary simE.N simE.c1v simE.c2Vv simE.initState 0
    simE_c2Vv_len
    (by simp [Simulation.initState, simE])
    (by simp [Simulation.initState, simE])
    (by rintro ⟨h, -⟩; omega)
    (by rw [Simulation.c2Vv, getD_map_mul]; simp [simE])
    (by simp only [Simulation.initState]; exact getD_replicate_zero _ _)
    (by simp only [Simulation.initState]; exact getD_replicate_zero _ _)
  exact ⟨hb.1, hb.2.1⟩

/-! ### Claim theorems -/

/-- C10 (confirmed): for every PointPotential instance and every scalar
argument, the scalar evaluation path `_fx` never returns a value: it
reads the attribute `tolerance`, but `__init__` stored the tolerance
parameter under the attribute name `epsilon`, so the lookup fails
(Python `AttributeError`, modelled as `none`). -/
theorem pointPotential_fx_always_raises (p : PointPotential) (x : ℝ) :
    p.fx x = none := by
  simp [PointPotential.fx, PointPotential.attr]

/-- C9 (confirmed): for every PointPotential and every nonempty
coordinate array whose minimum exceeds `pos` or whose maximum is below
`pos`, the array evaluation issues a warning and returns the all-zero
array of the same length instead of raising. -/
theorem pointPotential_outside_scale_warns (p : PointPotential) (x : List ℝ)
    (hx : x ≠ []) (h : listMin x > p.pos ∨ listMax x < p.pos) :
    p.farr x = (List.replicate x.length 0, true) := by
  unfold PointPotential.farr
  rw [if_pos h]

/-- Witness for C9 at `PointPotential(A=1, pos=5)` on the scale `[0]`:
the scale's maximum 0 lies below `pos = 5`. -/
theorem pointPotential_outside_scale_warns_witness :
    PointPotential.farr (PointPotential.make 1 (some 5) none) [0] =
      (List.replicate 1 0, true) :=
  pointPotential_outside_scale_warns (PointPotential.make 1 (some 5) none) [0]
    (by simp)
    (Or.inr (by norm_num [listMax, PointPotential.make]))

/-- C6 (code_bug): constructing `Particle(x0=0, sigma=1)` with the
wavenumber left unspecified does not succeed: the energy line squares
the parameter `k0`, which is `None`, so `__init__` raises `TypeError`
instead of producing a particle with `k0 = pi/20`. -/
theorem particle_default_k0_raises :
    Particle.init 0 1 none 1 = none := rfl

/-- C5 (counterexample): for `StepPotential(A=1, pos=0)` evaluated on the
single-coordinate array `[0]`, the coordinate equals `pos`, so the claim
predicts the entry 0; the code's array path executes `res[x >= pos] = A`
and returns the entry `A = 1 ≠ 0`. -/
theorem stepPotential_farr_at_pos_counterexample :
    StepPotential.farr { A := 1, pos := 0 } [0] = [1] ∧ (1 : ℝ) ≠ 0 := by
  constructor
  · norm_num [StepPotential.farr, maskedAssign]
  · norm_num

/-- C5 (amended): the array evaluation `_farr` of a StepPotential returns
`A` at every coordinate with `x ≥ pos` and 0 at every coordinate with
`x < pos` — the opposite convention to the claim's (which matches only
the scalar path `_fx`). -/
theorem stepPotential_farr_ge_pos (p : StepPotential) (x : List ℝ) :
    p.farr x = x.map (fun xi => if p.pos ≤ xi then p.A else 0) := by
  unfold StepPotential.farr maskedAssign
  induction x with
  | nil => rfl
  | cons a l ih => simpa [List.replicate_succ] using ih

/-- C1 (counterexample): in the simulation `simE` (Gaussian particle
`Particle(2,1,1,1)`, null potential, `N=4`, `dx=1`), the first snapshot
(the one yielded at `t = 0`) has probability 0 at index 0, while the
probability computed from the normalized initial present slice is
nonzero there: the first snapshot is not computed from the normalized
initial present slice. -/
theorem first_snapshot_counterexample :
    ((simE.simulate 1).head?.map (fun sn => sn.prob.getD 0 0)) = some 0 ∧
    simE.initState.rPR.getD 0 0 ^ 2 + simE.initState.iPR.getD 0 0 ^ 2 ≠ 0 := by
  constructor
  · have hdims := stepOnce_dims simE.N simE.c1v simE.c2Vv simE.initState
      simE_c2Vv_len (initState_dims simE (by simp [simE]))
    have hT : simE.T = 0 := rfl
    rw [Simulation.simulate, hT, runSteps, if_pos (Nat.zero_mod 1)]
    simp only [List.head?_cons, Option.map_some']
    rw [snapshotOf]
    rw [getD_zipWith _ (by norm_num) _ _ (hdims.2.1.trans hdims.2.2.2.2.1.symm)]
    rw [simE_step1_boundary.1, simE_step1_boundary.2]
    norm_num
  · exact ne_of_gt (add_pos_of_pos_of_nonneg
      (pow_two_pos_of_ne_zero simE_init_rPR0_ne) (sq_nonneg _))

/-- C1 (amended): the yield at `t = 0` happens only after the loop body
has already applied one update-and-rotation step, so the first snapshot
is computed from the present slice after one `stepOnce`, not from the
normalized initial present slice (the normalization invariant holds for
the initial state itself, not for the first snapshot). -/
theorem first_snapshot_after_one_step (sim : Simulation) (dT : ℕ) (hdT : 1 ≤ dT) :
    (sim.simulate dT).head? =
      some (snapshotOf (stepOnce sim.N sim.c1v sim.c2Vv sim.initState)) := by
  rw [Simulation.simulate, runSteps, if_pos (Nat.zero_mod dT)]
  rfl

/-- Witness for C1's amended statement at `simE` with `deltaT = 1`. -/
theorem first_snapshot_after_one_step_witness :
    1 ≤ 1 ∧ (simE.simulate 1).head? =
      some (snapshotOf (stepOnce simE.N simE.c1v simE.c2Vv simE.initState)) :=
  ⟨by norm_num, first_snapshot_after_one_step simE 1 (by norm_num)⟩

/-- C2 (counterexample): in the simulation `simE`, the present-slice
real value at boundary index 0 is nonzero immediately after
initialization and normalization, but equals 0 after the first loop
iteration: the boundary entries do not keep their post-initialization
values (the rotation overwrites them with the zero-initialized future
row). -/
theorem boundary_changes_counterexample :
    (simE.stateAt 1).rPR.getD 0 0 = 0 ∧ simE.initState.rPR.getD 0 0 ≠ 0 := by
  constructor
  · rw [show (1 : ℕ) = 0 + 1 from rfl, stateAt_succ, stateAt_zero]
    exact simE_step1_boundary.1
  · exact simE_init_rPR0_ne

/-- C2 (amended): the stencil assignment indeed never writes boundary
indices 0 and `N-1`, but the whole-row potential-term lines and the
rotation do: when the potential vanishes at the two boundary indices,
the present-slice real and imaginary boundary values equal 0 — the
value the zero-initialized future row held — at every step `t ≥ 1`,
rather than their post-initialization values. -/
theorem boundary_pinned_to_zero (sim : Simulation)
    (hs : sim.scale.length = sim.N) (hV : sim.V.length = sim.N)
    (hV0 : sim.V.getD 0 0 = 0) (hVN : sim.V.getD (sim.N - 1) 0 = 0)
    (t : ℕ) (ht : 1 ≤ t) :
    ((sim.stateAt t).rPR.getD 0 0 = 0 ∧ (sim.stateAt t).rPR.getD (sim.N - 1) 0 = 0) ∧
    ((sim.stateAt t).iPR.getD 0 0 = 0 ∧ (sim.stateAt t).iPR.getD (sim.N - 1) 0 = 0) := by
  have hc2len : sim.c2Vv.length = sim.N := by simp [Simulation.c2Vv, hV]
  have hcV0 : sim.c2Vv.getD 0 0 = 0 := by
    rw [Simulation.c2Vv, getD_map_mul, hV0, mul_zero]
  have hcVN : sim.c2Vv.getD (sim.N - 1) 0 = 0 := by
    rw [Simulation.c2Vv, getD_map_mul, hVN, mul_zero]
  obtain ⟨u, rfl⟩ : ∃ u, t = u + 1 := ⟨t - 1, by omega⟩
  obtain ⟨hdims, ⟨hr0, hrN⟩, ⟨hi0, hiN⟩⟩ := stateAt_invariant sim hs hV hV0 hVN u
  rw [stateAt_succ]
  have hb0 := stepOnce_boundary sim.N sim.c1v sim.c2Vv (sim.stateAt u) 0
    hc2len hdims.2.1 hdims.2.2.2.2.1 (by rintro ⟨h, -⟩; omega) hcV0 hr0 hi0
  have hbN := stepOnce_boundary sim.N sim.c1v sim.c2Vv (sim.stateAt u) (sim.N - 1)
    hc2len hdims.2.1 hdims.2.2.2.2.1 (by rintro ⟨-, h⟩; omega) hcVN hrN hiN
  exact ⟨⟨hb0.1, hbN.1⟩, ⟨hb0.2.1, hbN.2.1⟩⟩

/-- Witness for C2's amended statement at `simE` after one step. -/
theorem boundary_pinned_to_zero_witness :
    ((simE.stateAt 1).rPR.getD 0 0 = 0 ∧ (simE.stateAt 1).rPR.getD (simE.N - 1) 0 = 0) ∧
    ((simE.stateAt 1).iPR.getD 0 0 = 0 ∧ (simE.stateAt 1).iPR.getD (simE.N - 1) 0 = 0) :=
  boundary_pinned_to_zero simE (by simp [simE]) (by simp [simE])
    (by simp [simE]) (by simp [simE]) 1 (by norm_num)

/-- C4 (confirmed): for every simulation whose constructed arrays are
consistent (`len(scale) = len(V) = N`, as `__init__` guarantees whenever
it does not raise) and every positive sampling interval `deltaT`, the
generator yields exactly `T / deltaT + 1` snapshots, and every
snapshot's `prob`, `real` and `imag` arrays have length `N`. -/
theorem simulate_count_and_lengths (sim : Simulation) (dT : ℕ) (hdT : 1 ≤ dT)
    (hs : sim.scale.length = sim.N) (hV : sim.V.length = sim.N) :
    (sim.simulate dT).length = sim.T / dT + 1 ∧
    ∀ sn ∈ sim.simulate dT,
      sn.prob.length = sim.N ∧ sn.real.length = sim.N ∧ sn.imag.length = sim.N := by
  constructor
  · rw [Simulation.simulate, runSteps_length, countYields_total]
  · intro sn hsn
    exact runSteps_mem_lengths sim.N sim.c1v sim.c2Vv dT
      (by simp [Simulation.c2Vv, hV]) (sim.T + 1) 0 sim.initState
      (initState_dims sim hs) sn hsn

/-- Witness for C4 at the concrete simulation `simE` (`N = 4`, `T = 0`)
with `deltaT = 1`. -/
theorem simulate_count_and_lengths_witness :
    (simE.simulate 1).length = simE.T / 1 + 1 ∧
    ∀ sn ∈ simE.simulate 1,
      sn.prob.length = simE.N ∧ sn.real.length = simE.N ∧ sn.imag.length = simE.N :=
  simulate_count_and_lengths simE 1 (by norm_num) (by simp [simE]) (by simp [simE])

/-- C3 (confirmed): for every Gaussian particle and every potential and
grid with positive initial probability mass `P = dx * sum(prob)`, the
normalized present slices satisfy the invariant exactly in real
arithmetic: `dx` times the sum of the elementwise squares
`real^2 + imag^2` of the normalized rows equals 1. -/
theorem normalization_invariant (sim : Simulation) (g : Particle)
    (hg : sim.p = Particle.iface g) (hP : 0 < sim.P0) :
    sim.dx * (List.zipWith (fun a b => a ^ 2 + b ^ 2)
      sim.initState.rPR sim.initState.iPR).sum = 1 := by
  have hsq : Real.sqrt sim.P0 ^ 2 = sim.P0 := Real.sq_sqrt (le_of_lt hP)
  have hpr : ∀ x : ℝ, sim.p.prob x 0 = sim.p.real x 0 ^ 2 + sim.p.imag x 0 ^ 2 := by
    intro x
    rw [hg]
    rfl
  have hterm : ∀ x : ℝ,
      (sim.p.real x 0 / Real.sqrt sim.P0) ^ 2 + (sim.p.imag x 0 / Real.sqrt sim.P0) ^ 2
        = sim.p.prob x 0 / sim.P0 := by
    intro x
    rw [div_pow, div_pow, hsq, div_add_div_same, hpr]
  simp only [Simulation.initState]
  rw [zipWith_map_same]
  simp only [hterm]
  rw [sum_map_div sim.scale (fun x => sim.p.prob x 0) sim.P0]
  rw [Simulation.P0] at hP ⊢
  rw [← mul_div_assoc]
  exact div_self (ne_of_gt hP)

/-- Witness for C3: the particle `Particle(x0=0, sigma=1, k0=1, m=1)` on
the one-point grid `[0]` with `dx = 1` has positive initial mass, and
the theorem applies. -/
theorem normalization_invariant_witness :
    0 < (Simulation.mk 1 0 1 none [0] [0] (Particle.iface (Particle.make 0 1 1 1))).P0 ∧
    (Simulation.mk 1 0 1 none [0] [0] (Particle.iface (Particle.make 0 1 1 1))).dx *
      (List.zipWith (fun a b => a ^ 2 + b ^ 2)
        (Simulation.mk 1 0 1 none [0] [0] (Particle.iface (Particle.make 0 1 1 1))).initState.rPR
        (Simulation.mk 1 0 1 none [0] [0] (Particle.iface (Particle.make 0 1 1 1))).initState.iPR).sum = 1 := by
  have hP := P0_pos_of_particle (Particle.make 0 1 1 1) 1 0 1 none [0] [0]
    (by norm_num) (by simp)
  exact ⟨hP, normalization_invariant _ (Particle.make 0 1 1 1) rfl hP⟩

/-- C7 (counterexample): `Simulation(pZero, [], N=2, dx=1, xlims=(0,1))`
constructs successfully, but its grid `arange(0, 1, 1) = [0]` has
length 1 while `N = 2` and `len(V) = 2`: the invariant
`len(V) == len(scale) == N` fails when `xlims` overrides the
`N`/`dx`-derived range. -/
theorem xlims_length_mismatch_counterexample :
    ((Simulation.init pZero [] 2 1 (some (0, 1)) none none).map
      (fun sim => (sim.V.length, sim.scale.length, sim.N))) = some (2, 1, 2) ∧
    (1 : ℕ) ≠ 2 := by
  constructor
  · have harange : arange 0 1 1 = [0] := by
      rw [arange]
      norm_num
      simp [List.range_succ]
    simp [Simulation.init, evalPotentials, harange]
  · norm_num

/-- C7 (amended): when `xlims` is not supplied (so the grid is derived
from `N` and `dx > 0`) and every contributor's array evaluation
preserves the length of its input, construction succeeds and
`len(V) == len(scale) == N` holds. With `xlims` supplied the grid
length is `ceil((xlims[1]-xlims[0])/dx)`, which need not equal `N`. -/
theorem default_construction_lengths (p : PIface) (pots : List (List ℝ → List ℝ))
    (N : ℕ) (dx : ℝ) (T? : Option ℕ) (dt? : Option ℝ) (hdx : 0 < dx)
    (hpots : ∀ f ∈ pots, ∀ s : List ℝ, (f s).length = s.length) :
    (Simulation.init p pots N dx none T? dt?).map
      (fun sim => (sim.V.length, sim.scale.length, sim.N)) = some (N, N, N) := by
  have hlen : (arange 0 ((N : ℝ) * dx) dx).length = N := arange_default_length N dx hdx
  obtain ⟨V, hV, hVl⟩ := foldlM_npAdd_length (arange 0 ((N : ℝ) * dx) dx) N hlen pots
    (fun f hf => hpots f hf _) (List.replicate N 0) (by simp)
  rw [Simulation.init]
  simp only [evalPotentials] at hV ⊢
  rw [hV]
  simp [hVl, hlen]

/-- Witness for C7's amended statement: the default construction with
`N = 3`, `dx = 1` and no potentials. -/
theorem default_construction_lengths_witness :
    (Simulation.init pZero [] 3 1 none none none).map
      (fun sim => (sim.V.length, sim.scale.length, sim.N)) = some (3, 3, 3) :=
  default_construction_lengths pZero [] 3 1 none none (by norm_num)
    (by intro f hf; simp at hf)

/-- C8 (code_bug): `PointPotential(A=1, pos=-5)` with the default
tolerance, evaluated on the grid `[-5, 0]` whose first coordinate equals
`pos` exactly: the guard compares `abs(x[idx]) = 5` against
`abs(pos + epsilon) = 4.9999` instead of `abs(x[idx] - pos)` against
`epsilon`, so the code warns and returns the all-zero array rather than
placing the amplitude at the matching index. -/
theorem pointPotential_exact_neg_pos_zeroed :
    PointPotential.farr (PointPotential.make 1 (some (-5)) none) [-5, 0] =
      ([0, 0], true) := by
  have hmake : PointPotential.make 1 (some (-5)) none =
      { A := 1, pos := -5, epsilon := 1 / 10000 } := by
    simp [PointPotential.make]
  rw [hmake]
  have hmin : listMin [(-5 : ℝ), 0] = -5 := by simp [listMin, min_def]
  have hmax : listMax [(-5 : ℝ), 0] = 0 := by simp [listMax, max_def]
  unfold PointPotential.farr
  rw [if_neg]
  · have hshift : [(-5 : ℝ), 0].map
        (fun xi => |xi - ({ A := 1, pos := -5, epsilon := 1 / 10000 } : PointPotential).pos|) =
        [0, 5] := by
      norm_num [abs_of_nonneg]
    have hmin2 : listMin [(0 : ℝ), 5] = 0 := by simp [listMin, min_def]
    have hidx : List.findIdx (fun v => decide (v = (0 : ℝ))) [0, 5] = 0 := by
      simp [List.findIdx_cons]
    simp only [hshift, hmin2, hidx]
    rw [if_pos]
    · simp
    · have h5 : |(-5 : ℝ)| = 5 := by rw [abs_of_nonpos] <;> norm_num
      have ha : |(-5 : ℝ) + 1 / 10000| = 5 - 1 / 10000 := by
        rw [abs_of_nonpos] <;> norm_num
      simp only [List.getD_cons_zero, h5]
      rw [ha]
      norm_num
  · rw [hmin, hmax]
    norm_num

